import Mathlib

/-!
Verification of the `pairing` library (Cantor pairing function).

The repository consists of a single module exposing `pair(a, b) -> z` and
`depair(z) -> (a, b)` over arbitrary-precision integers, plus a test file
`test.py`.  The module `pairing.py` itself is not present under `src/`
(only its tests and packaging are), so the two functions are modelled here
from the specification, faithfully to its words:

  * `pair(a, b)`: rejects `a < 0` or `b < 0` with `InvalidInput`, otherwise
    returns `z = ((a + b) * (a + b + 1)) / 2 + b`.
  * `depair(z)`: rejects `z < 0` with `InvalidInput`, otherwise computes
    `w = floor((sqrt(8z + 1) - 1) / 2)`, `t = (w*w + w) / 2`, `b = z - t`,
    `a = w - b`.  The spec requires a precision failure to surface as an
    explicit error, never a silently wrong pair, and offers two sanctioned
    implementations: validate the recovered pair by re-encoding and compare
    to `z` (raising on mismatch), or use an exact integer square root.
    The model keeps the square root as a parameter (`depairWith`), so that
    theorems about the validation step hold for every square-root routine,
    and instantiates it with an exact integer square root for `depair`.

Integers are embedded as `Int`; `/` on `Int` is floor division for the
positive divisors used here, matching Python's `//` and the floored
`math.floor(... / 2)` of the decode step.
-/

namespace PairingSpec

/-- Fuel-indexed integer square root by the divide-by-four recurrence:
`isqrtFuel` is structural in the fuel so the kernel can evaluate it. -/
def isqrtFuel : Nat → Nat → Nat
  | 0, _ => 0
  | fuel + 1, n =>
    if n < 2 then n
    else
      let r := 2 * isqrtFuel fuel (n / 4)
      if (r + 1) * (r + 1) ≤ n then r + 1 else r

/-- Modelled from the spec: the exact integer square root that the spec
recommends for the decode step of the missing module `pairing.py`
("use exact integer square-root extraction ... to avoid the issue
entirely").  `isqrt n` is the floor of the real square root of `n`. -/
def isqrt (n : Nat) : Nat := isqrtFuel n n

/-- Error kinds of the spec's error model for the missing module
`pairing.py`: `InvalidInput` for negative arguments, `PrecisionError`
for a decode that cannot guarantee an exact round-trip. -/
inductive PairingError where
  | invalidInput : PairingError
  | precisionError : PairingError
deriving DecidableEq

/-- Modelled from the spec and `src/test.py`: the Python exception class
realising each error kind of the missing module `pairing.py`.  `test.py`
catches `ValueError` both for negative inputs (`pair(-1, -1)`) and for the
precision failure at `2**52`, so both kinds surface as `ValueError`. -/
def pyExceptionType : PairingError → String
  | PairingError.invalidInput => "ValueError"
  | PairingError.precisionError => "ValueError"

/-- Modelled from the spec: `pair(a, b)` of the missing module
`pairing.py`.  Rejects negative inputs with `InvalidInput`, otherwise
returns `((a + b) * (a + b + 1)) / 2 + b`. -/
def pair (a b : Int) : Except PairingError Int :=
  if a < 0 ∨ b < 0 then Except.error PairingError.invalidInput
  else Except.ok ((a + b) * (a + b + 1) / 2 + b)

/-- Diagonal index recovered by the decode step: `w = (sqrt(8z+1) - 1) / 2`,
with `f` the integer square-root routine in use. -/
def wOf (f : Nat → Nat) (z : Int) : Int := ((f (8 * z.toNat + 1) : Int) - 1) / 2

/-- Triangular number at the start of diagonal `w`: `t = (w*w + w) / 2`. -/
def tOf (f : Nat → Nat) (z : Int) : Int := (wOf f z * wOf f z + wOf f z) / 2

/-- Second component recovered by the decode step: `b = z - t`. -/
def bOf (f : Nat → Nat) (z : Int) : Int := z - tOf f z

/-- First component recovered by the decode step: `a = w - b`. -/
def aOf (f : Nat → Nat) (z : Int) : Int := wOf f z - bOf f z

/-- Modelled from the spec: `depair(z)` of the missing module `pairing.py`,
parametrised by the integer square-root routine `f`.  Rejects `z < 0` with
`InvalidInput`; otherwise recovers `(a, b)` through `w`, `t`, `b = z - t`,
`a = w - b`, validates by re-encoding (`pair a b` must give back exactly
`z`) and fails with `PrecisionError` on any mismatch, as the spec demands
("validate the recovered `(a,b)` by re-encoding and comparing to `z`,
raising an error on mismatch"). -/
def depairWith (f : Nat → Nat) (z : Int) : Except PairingError (Int × Int) :=
  if z < 0 then Except.error PairingError.invalidInput
  else
    match pair (aOf f z) (bOf f z) with
    | Except.ok z2 =>
        if z2 = z then Except.ok (aOf f z, bOf f z)
        else Except.error PairingError.precisionError
    | Except.error _ => Except.error PairingError.precisionError

/-- Modelled from the spec: `depair(z)` of the missing module `pairing.py`,
with the exact integer square root the spec recommends. -/
def depair : Int → Except PairingError (Int × Int) := depairWith isqrt

/-- Natural-number form of the encode formula, for the arithmetic lemmas. -/
def natPair (a b : Nat) : Nat := (a + b) * (a + b + 1) / 2 + b

/-- Diagonal index of the decode step, on naturals. -/
def cantorW (z : Nat) : Nat := (isqrt (8 * z + 1) - 1) / 2

/-- Triangular number at the start of diagonal `cantorW z`, on naturals. -/
def cantorT (z : Nat) : Nat := (cantorW z * cantorW z + cantorW z) / 2

/-- Second recovered component of the decode step, on naturals. -/
def cantorB (z : Nat) : Nat := z - cantorT z

/-- First recovered component of the decode step, on naturals. -/
def cantorA (z : Nat) : Nat := cantorW z - cantorB z

theorem isqrtFuel_spec (fuel : Nat) : ∀ n : Nat, n < 4 ^ fuel →
    isqrtFuel fuel n * isqrtFuel fuel n ≤ n ∧
      n < (isqrtFuel fuel n + 1) * (isqrtFuel fuel n + 1) := by
  induction fuel with
  | zero =>
    intro n hn
    interval_cases n
    simp [isqrtFuel]
  | succ fuel ih =>
    intro n hn
    by_cases h2 : n < 2
    · simp only [isqrtFuel, if_pos h2]
      interval_cases n <;> simp
    · have hdiv : n / 4 < 4 ^ fuel := by
        have h4 : n < 4 ^ fuel * 4 := by
          rw [pow_succ] at hn
          omega
        omega
      obtain ⟨hl, hr⟩ := ih (n / 4) hdiv
      set s := isqrtFuel fuel (n / 4) with hs
      have hlow : 2 * s * (2 * s) ≤ n := by
        have h4 : 4 * (s * s) ≤ n := by
          generalize s * s = A at hl
          omega
        nlinarith
      have hhigh : n < (2 * s + 2) * (2 * s + 2) := by
        have h4 : n < 4 * ((s + 1) * (s + 1)) := by
          generalize (s + 1) * (s + 1) = A at hr
          omega
        nlinarith
      simp only [isqrtFuel, if_neg h2, ← hs]
      by_cases h3 : (2 * s + 1) * (2 * s + 1) ≤ n
      · simp only [if_pos h3]
        exact ⟨h3, hhigh⟩
      · simp only [if_neg h3]
        exact ⟨hlow, by omega⟩

theorem isqrt_spec (n : Nat) :
    isqrt n * isqrt n ≤ n ∧ n < (isqrt n + 1) * (isqrt n + 1) :=
  isqrtFuel_spec n n (Nat.lt_pow_self (by norm_num) n)

theorem isqrt_eq_sqrt (n : Nat) : isqrt n = Nat.sqrt n := by
  obtain ⟨hl, hr⟩ := isqrt_spec n
  have h1 : isqrt n ≤ Nat.sqrt n := Nat.le_sqrt.mpr hl
  have h2 : Nat.sqrt n ≤ isqrt n := by
    by_contra h
    push_neg at h
    have : isqrt n + 1 ≤ Nat.sqrt n := h
    have := Nat.sqrt_le n
    nlinarith
  omega

theorem two_natPair (a b : Nat) : 2 * natPair a b = (a + b) * (a + b + 1) + 2 * b := by
  have he : (a + b) * (a + b + 1) % 2 = 0 :=
    Nat.even_iff.mp (Nat.even_mul_succ_self (a + b))
  unfold natPair
  generalize (a + b) * (a + b + 1) = X at he ⊢
  omega

theorem diag_lt {n n' b : Nat} (h : n < n') (hb : b ≤ n) :
    n * (n + 1) + 2 * b < n' * (n' + 1) := by
  have h1 : (n + 1) * (n + 2) ≤ n' * (n' + 1) :=
    Nat.mul_le_mul (by omega) (by omega)
  nlinarith

theorem natPair_inj {a b a' b' : Nat} (h : natPair a b = natPair a' b') :
    a = a' ∧ b = b' := by
  have H := two_natPair a b
  have H' := two_natPair a' b'
  have hd : (a + b) * (a + b + 1) + 2 * b = (a' + b') * (a' + b' + 1) + 2 * b' := by
    omega
  have key : a + b = a' + b' := by
    by_contra hne
    rcases Nat.lt_or_ge (a + b) (a' + b') with hlt | hge
    · have := diag_lt hlt (Nat.le_add_left b a)
      omega
    · have hlt' : a' + b' < a + b := by omega
      have := diag_lt hlt' (Nat.le_add_left b' a')
      omega
  rw [key] at hd
  omega

theorem cantor_correct (z : Nat) :
    cantorT z ≤ z ∧ cantorB z ≤ cantorW z ∧ cantorA z + cantorB z = cantorW z ∧
      2 * cantorT z = cantorW z * cantorW z + cantorW z ∧
      natPair (cantorA z) (cantorB z) = z := by
  obtain ⟨hl, hr⟩ := isqrt_spec (8 * z + 1)
  set s := isqrt (8 * z + 1) with hsdef
  have hs1 : 1 ≤ s := by
    rcases Nat.eq_zero_or_pos s with h0 | h1
    · rw [h0] at hr
      omega
    · exact h1
  have hw : cantorW z = (s - 1) / 2 := rfl
  have h2w1 : 2 * cantorW z + 1 ≤ s := by
    rw [hw]
    omega
  have h2w2 : s ≤ 2 * cantorW z + 2 := by
    rw [hw]
    omega
  set w := cantorW z with hwdef
  have hwl : (2 * w + 1) * (2 * w + 1) ≤ 8 * z + 1 :=
    le_trans (Nat.mul_le_mul h2w1 h2w1) hl
  have hwr : 8 * z + 1 < (2 * w + 3) * (2 * w + 3) :=
    lt_of_lt_of_le hr (Nat.mul_le_mul (by omega) (by omega))
  have heven : (w * w + w) % 2 = 0 := by
    have h := Nat.even_iff.mp (Nat.even_mul_succ_self w)
    have he : w * (w + 1) = w * w + w := by ring
    omega
  have ht : 2 * cantorT z = w * w + w := by
    show 2 * ((w * w + w) / 2) = w * w + w
    omega
  have key1 : w * w + w ≤ 2 * z := by nlinarith
  have key2 : 2 * z < w * w + 3 * w + 2 := by nlinarith
  have htz : cantorT z ≤ z := by omega
  have hbz : cantorB z ≤ w := by
    show z - cantorT z ≤ w
    omega
  have hab : cantorA z + cantorB z = w := by
    show w - cantorB z + cantorB z = w
    omega
  refine ⟨htz, hbz, hab, ht, ?_⟩
  have H := two_natPair (cantorA z) (cantorB z)
  rw [hab] at H
  have he2 : w * (w + 1) = w * w + w := by ring
  have hB : cantorB z = z - cantorT z := rfl
  omega

theorem pair_eq_of_nonneg {a b : Int} (ha : 0 ≤ a) (hb : 0 ≤ b) :
    pair a b = Except.ok ((natPair a.toNat b.toNat : Nat) : Int) := by
  have hg : ¬(a < 0 ∨ b < 0) := by omega
  unfold pair
  rw [if_neg hg]
  congr 1
  have h2 : (2 : Int) * ((natPair a.toNat b.toNat : Nat) : Int) =
      (a + b) * (a + b + 1) + 2 * b := by
    have hc := congrArg (fun n : Nat => (n : Int)) (two_natPair a.toNat b.toNat)
    push_cast at hc
    rw [Int.toNat_of_nonneg ha, Int.toNat_of_nonneg hb] at hc
    linarith
  have h3 : (a + b) * (a + b + 1) =
      2 * (((natPair a.toNat b.toNat : Nat) : Int) - b) := by linarith
  rw [h3, Int.mul_ediv_cancel_left _ (by norm_num : (2 : Int) ≠ 0)]
  ring

theorem pair_ok_elim {a b z : Int} (h : pair a b = Except.ok z) :
    0 ≤ a ∧ 0 ≤ b ∧ z = ((natPair a.toNat b.toNat : Nat) : Int) := by
  by_cases hg : a < 0 ∨ b < 0
  · unfold pair at h
    rw [if_pos hg] at h
    simp at h
  · have ha : 0 ≤ a := by omega
    have hb : 0 ≤ b := by omega
    rw [pair_eq_of_nonneg ha hb] at h
    exact ⟨ha, hb, (Except.ok.inj h).symm⟩

theorem pair_ok_inj {a b a' b' z : Int} (h : pair a b = Except.ok z)
    (h' : pair a' b' = Except.ok z) : a = a' ∧ b = b' := by
  obtain ⟨ha, hb, hz⟩ := pair_ok_elim h
  obtain ⟨ha', hb', hz'⟩ := pair_ok_elim h'
  have hnn : ((natPair a.toNat b.toNat : Nat) : Int) =
      ((natPair a'.toNat b'.toNat : Nat) : Int) := by rw [← hz, ← hz']
  have hne : natPair a.toNat b.toNat = natPair a'.toNat b'.toNat :=
    Int.natCast_inj.mp hnn
  obtain ⟨hA, hB⟩ := natPair_inj hne
  constructor
  · omega
  · omega

theorem depair_eq {z : Int} (hz : 0 ≤ z) :
    depair z = Except.ok (((cantorA z.toNat : Nat) : Int), ((cantorB z.toNat : Nat) : Int)) ∧
      pair ((cantorA z.toNat : Nat) : Int) ((cantorB z.toNat : Nat) : Int) = Except.ok z := by
  obtain ⟨htz, hbw, habw, h2t, hnp⟩ := cantor_correct z.toNat
  have hp : pair ((cantorA z.toNat : Nat) : Int) ((cantorB z.toNat : Nat) : Int) =
      Except.ok z := by
    rw [pair_eq_of_nonneg (Int.natCast_nonneg _) (Int.natCast_nonneg _)]
    congr 1
    have e1 : ((cantorA z.toNat : Nat) : Int).toNat = cantorA z.toNat := by omega
    have e2 : ((cantorB z.toNat : Nat) : Int).toNat = cantorB z.toNat := by omega
    rw [e1, e2, hnp, Int.toNat_of_nonneg hz]
  have hs1 : 1 ≤ isqrt (8 * z.toNat + 1) := by
    obtain ⟨hl, hr⟩ := isqrt_spec (8 * z.toNat + 1)
    rcases Nat.eq_zero_or_pos (isqrt (8 * z.toNat + 1)) with h0 | h1
    · rw [h0] at hr
      omega
    · exact h1
  have hwcast : wOf isqrt z = ((cantorW z.toNat : Nat) : Int) := by
    unfold wOf cantorW
    generalize isqrt (8 * z.toNat + 1) = s at hs1 ⊢
    omega
  have htcast : tOf isqrt z = ((cantorT z.toNat : Nat) : Int) := by
    unfold tOf cantorT
    rw [hwcast]
    have hmul : ((cantorW z.toNat : Nat) : Int) * ((cantorW z.toNat : Nat) : Int) +
        ((cantorW z.toNat : Nat) : Int) =
        ((cantorW z.toNat * cantorW z.toNat + cantorW z.toNat : Nat) : Int) := by
      push_cast
      ring
    rw [hmul]
    generalize cantorW z.toNat * cantorW z.toNat + cantorW z.toNat = X
    omega
  have hbcast : bOf isqrt z = ((cantorB z.toNat : Nat) : Int) := by
    unfold bOf cantorB
    rw [htcast]
    generalize hT : cantorT z.toNat = T at htz ⊢
    omega
  have hacast : aOf isqrt z = ((cantorA z.toNat : Nat) : Int) := by
    unfold aOf cantorA
    rw [hwcast, hbcast]
    generalize cantorW z.toNat = W at hbw ⊢
    generalize cantorB z.toNat = B at hbw ⊢
    omega
  refine ⟨?_, hp⟩
  unfold depair depairWith
  rw [if_neg (not_lt.mpr hz), hacast, hbcast, hp]
  simp

theorem depairWith_cases (f : Nat → Nat) {a b z : Int}
    (hz : pair a b = Except.ok z) :
    depairWith f z = Except.ok (a, b) ∨
      depairWith f z = Except.error PairingError.precisionError := by
  obtain ⟨ha, hb, hzeq⟩ := pair_ok_elim hz
  have hz0 : 0 ≤ z := by
    rw [hzeq]
    exact Int.natCast_nonneg _
  unfold depairWith
  rw [if_neg (not_lt.mpr hz0)]
  split
  · rename_i z2 hp
    split
    · rename_i he
      left
      subst he
      obtain ⟨hA, hB⟩ := pair_ok_inj hp hz
      rw [hA, hB]
    · right
      rfl
  · right
    rfl

theorem roundtrip {a b : Int} (ha : 0 ≤ a) (hb : 0 ≤ b) :
    ∃ z, pair a b = Except.ok z ∧ depair z = Except.ok (a, b) := by
  refine ⟨((natPair a.toNat b.toNat : Nat) : Int), pair_eq_of_nonneg ha hb, ?_⟩
  have hz : (0 : Int) ≤ ((natPair a.toNat b.toNat : Nat) : Int) :=
    Int.natCast_nonneg _
  obtain ⟨hd, hp⟩ := depair_eq hz
  obtain ⟨hA, hB⟩ := pair_ok_inj (pair_eq_of_nonneg ha hb) hp
  rw [hd, ← hA, ← hB]

/-- C1: for every pair of integers `a ≥ 0` and `b ≥ 0`,
`depair (pair a b) = (a, b)` exactly; in particular the pairs `(22, 33)`,
`(256, 256)` and `(65536, 65536)` round-trip exactly.  The decode step of
the model uses the exact integer square root the spec recommends, so the
round-trip holds with no precision ceiling. -/
theorem claim_c1_round_trip (a b : Int) (ha : 0 ≤ a) (hb : 0 ≤ b) :
    (∃ z, pair a b = Except.ok z ∧ depair z = Except.ok (a, b)) ∧
      (∃ z, pair 22 33 = Except.ok z ∧ depair z = Except.ok (22, 33)) ∧
      (∃ z, pair 256 256 = Except.ok z ∧ depair z = Except.ok (256, 256)) ∧
      (∃ z, pair 65536 65536 = Except.ok z ∧ depair z = Except.ok (65536, 65536)) :=
  ⟨roundtrip ha hb, roundtrip (by norm_num) (by norm_num),
    roundtrip (by norm_num) (by norm_num), roundtrip (by norm_num) (by norm_num)⟩

theorem claim_c1_round_trip_witness :
    (0 : Int) ≤ 22 ∧ (0 : Int) ≤ 33 ∧
      ((∃ z, pair 22 33 = Except.ok z ∧ depair z = Except.ok (22, 33)) ∧
        (∃ z, pair 22 33 = Except.ok z ∧ depair z = Except.ok (22, 33)) ∧
        (∃ z, pair 256 256 = Except.ok z ∧ depair z = Except.ok (256, 256)) ∧
        (∃ z, pair 65536 65536 = Except.ok z ∧ depair z = Except.ok (65536, 65536))) :=
  ⟨by norm_num, by norm_num, claim_c1_round_trip 22 33 (by norm_num) (by norm_num)⟩

/-- C2: for every pair of integers `a ≥ 0` and `b ≥ 0`, `pair a b` returns
exactly `z = ((a + b) * (a + b + 1)) / 2 + b`, the standard Cantor pairing
formula, the division being exact since `(a + b) * (a + b + 1)` is even. -/
theorem claim_c2_pair_formula (a b : Int) (ha : 0 ≤ a) (hb : 0 ≤ b) :
    pair a b = Except.ok ((a + b) * (a + b + 1) / 2 + b) ∧
      2 * ((a + b) * (a + b + 1) / 2 + b) = (a + b) * (a + b + 1) + 2 * b := by
  have h1 : pair a b = Except.ok ((a + b) * (a + b + 1) / 2 + b) := by
    unfold pair
    rw [if_neg (by omega : ¬(a < 0 ∨ b < 0))]
  refine ⟨h1, ?_⟩
  have he : (a + b) * (a + b + 1) % 2 = 0 :=
    Int.even_iff.mp (Int.even_mul_succ_self (a + b))
  generalize (a + b) * (a + b + 1) = X at he ⊢
  omega

theorem claim_c2_pair_formula_witness :
    (0 : Int) ≤ 22 ∧ (0 : Int) ≤ 33 ∧
      (pair 22 33 = Except.ok (((22 : Int) + 33) * (22 + 33 + 1) / 2 + 33) ∧
        2 * (((22 : Int) + 33) * (22 + 33 + 1) / 2 + 33) =
          ((22 : Int) + 33) * (22 + 33 + 1) + 2 * 33) :=
  ⟨by norm_num, by norm_num, claim_c2_pair_formula 22 33 (by norm_num) (by norm_num)⟩

/-- C3: for every integer `z ≥ 0`, `depair z` computes
`w = (sqrt (8z + 1) - 1) / 2` (floor square root), then `t = (w*w + w) / 2`,
then `b = z - t` and `a = w - b`, and returns the unique pair `(a, b)` with
`pair a b = z`. -/
theorem claim_c3_depair_computation (z : Int) (hz : 0 ≤ z) :
    cantorW z.toNat = (Nat.sqrt (8 * z.toNat + 1) - 1) / 2 ∧
      cantorT z.toNat = (cantorW z.toNat * cantorW z.toNat + cantorW z.toNat) / 2 ∧
      cantorB z.toNat = z.toNat - cantorT z.toNat ∧
      cantorA z.toNat = cantorW z.toNat - cantorB z.toNat ∧
      depair z = Except.ok (((cantorA z.toNat : Nat) : Int), ((cantorB z.toNat : Nat) : Int)) ∧
      pair ((cantorA z.toNat : Nat) : Int) ((cantorB z.toNat : Nat) : Int) = Except.ok z ∧
      ∀ a b : Int, pair a b = Except.ok z →
        a = ((cantorA z.toNat : Nat) : Int) ∧ b = ((cantorB z.toNat : Nat) : Int) := by
  obtain ⟨hd, hp⟩ := depair_eq hz
  refine ⟨?_, rfl, rfl, rfl, hd, hp, ?_⟩
  · unfold cantorW
    rw [isqrt_eq_sqrt]
  · intro a b h
    exact pair_ok_inj h hp

theorem claim_c3_depair_computation_witness :
    (0 : Int) ≤ 3135 ∧
      (cantorW (3135 : Int).toNat = (Nat.sqrt (8 * (3135 : Int).toNat + 1) - 1) / 2 ∧
        cantorT (3135 : Int).toNat =
          (cantorW (3135 : Int).toNat * cantorW (3135 : Int).toNat + cantorW (3135 : Int).toNat) / 2 ∧
        cantorB (3135 : Int).toNat = (3135 : Int).toNat - cantorT (3135 : Int).toNat ∧
        cantorA (3135 : Int).toNat = cantorW (3135 : Int).toNat - cantorB (3135 : Int).toNat ∧
        depair 3135 = Except.ok (((cantorA (3135 : Int).toNat : Nat) : Int),
          ((cantorB (3135 : Int).toNat : Nat) : Int)) ∧
        pair ((cantorA (3135 : Int).toNat : Nat) : Int)
          ((cantorB (3135 : Int).toNat : Nat) : Int) = Except.ok 3135 ∧
        ∀ a b : Int, pair a b = Except.ok 3135 →
          a = ((cantorA (3135 : Int).toNat : Nat) : Int) ∧
            b = ((cantorB (3135 : Int).toNat : Nat) : Int)) :=
  ⟨by norm_num, claim_c3_depair_computation 3135 (by norm_num)⟩

/-- C4: `pair` is a bijection from pairs of non-negative integers onto the
non-negative integers: distinct non-negative pairs give distinct results,
and every `z ≥ 0` is `pair a b` for some `a, b ≥ 0`. -/
theorem claim_c4_bijection (a1 b1 a2 b2 : Int) (h1 : 0 ≤ a1) (h2 : 0 ≤ b1)
    (h3 : 0 ≤ a2) (h4 : 0 ≤ b2) (hne : (a1, b1) ≠ (a2, b2)) :
    pair a1 b1 ≠ pair a2 b2 ∧
      ∀ z : Int, 0 ≤ z → ∃ a b : Int, 0 ≤ a ∧ 0 ≤ b ∧ pair a b = Except.ok z := by
  constructor
  · intro heq
    have e1 := pair_eq_of_nonneg h1 h2
    have h5 : pair a2 b2 = Except.ok ((natPair a1.toNat b1.toNat : Nat) : Int) := by
      rw [← heq]
      exact e1
    obtain ⟨hA, hB⟩ := pair_ok_inj h5 e1
    apply hne
    rw [hA, hB]
  · intro z hz
    obtain ⟨hd, hp⟩ := depair_eq hz
    exact ⟨_, _, Int.natCast_nonneg _, Int.natCast_nonneg _, hp⟩

theorem claim_c4_bijection_witness :
    (0 : Int) ≤ 0 ∧ (0 : Int) ≤ 0 ∧ (0 : Int) ≤ 0 ∧ (0 : Int) ≤ 1 ∧
      ((0 : Int), (0 : Int)) ≠ ((0 : Int), (1 : Int)) ∧
      (pair 0 0 ≠ pair 0 1 ∧
        ∀ z : Int, 0 ≤ z → ∃ a b : Int, 0 ≤ a ∧ 0 ≤ b ∧ pair a b = Except.ok z) :=
  ⟨by norm_num, by norm_num, by norm_num, by norm_num, by decide,
    claim_c4_bijection 0 0 0 1 (by norm_num) (by norm_num) (by norm_num) (by norm_num)
      (by decide)⟩

/-- C5: `pair a b` fails with the `InvalidInput` error whenever `a < 0` or
`b < 0`, and `depair z` fails with `InvalidInput` whenever `z < 0`; in
particular `pair (-1) 0`, `pair 0 (-1)` and `depair (-1)` all fail with
`InvalidInput` rather than returning a value. -/
theorem claim_c5_domain_rejection (a b z : Int) (hab : a < 0 ∨ b < 0) (hz : z < 0) :
    pair a b = Except.error PairingError.invalidInput ∧
      depair z = Except.error PairingError.invalidInput ∧
      pair (-1) 0 = Except.error PairingError.invalidInput ∧
      pair 0 (-1) = Except.error PairingError.invalidInput ∧
      depair (-1) = Except.error PairingError.invalidInput := by
  refine ⟨?_, ?_, rfl, rfl, rfl⟩
  · unfold pair
    rw [if_pos hab]
  · unfold depair depairWith
    rw [if_pos hz]

theorem claim_c5_domain_rejection_witness :
    ((-1 : Int) < 0 ∨ (0 : Int) < 0) ∧ (-1 : Int) < 0 ∧
      (pair (-1) 0 = Except.error PairingError.invalidInput ∧
        depair (-1) = Except.error PairingError.invalidInput ∧
        pair (-1) 0 = Except.error PairingError.invalidInput ∧
        pair 0 (-1) = Except.error PairingError.invalidInput ∧
        depair (-1) = Except.error PairingError.invalidInput) :=
  ⟨Or.inl (by norm_num), by norm_num,
    claim_c5_domain_rejection (-1) 0 (-1) (Or.inl (by norm_num)) (by norm_num)⟩

/-- C6: `depair (pair (2^52) (2^52))` either returns exactly
`(2^52, 2^52)` or fails with the explicit precision error; it never
returns a different pair without failing.  This holds for every integer
square-root routine `f`, because the decode step validates by re-encoding;
with the exact integer square root actually used by `depair`, the
round-trip succeeds. -/
theorem claim_c6_precision_boundary (f : Nat → Nat) :
    ∃ z, pair (2 ^ 52) (2 ^ 52) = Except.ok z ∧
      (depairWith f z = Except.ok (2 ^ 52, 2 ^ 52) ∨
        depairWith f z = Except.error PairingError.precisionError) ∧
      depair z = Except.ok (2 ^ 52, 2 ^ 52) := by
  have hp : (0 : Int) ≤ 2 ^ 52 := by positivity
  obtain ⟨z, hz, hd⟩ := roundtrip hp hp
  exact ⟨z, hz, depairWith_cases f hz, hd⟩

theorem claim_c6_precision_boundary_witness :
    ∃ z, pair (2 ^ 52) (2 ^ 52) = Except.ok z ∧
      (depairWith isqrt z = Except.ok (2 ^ 52, 2 ^ 52) ∨
        depairWith isqrt z = Except.error PairingError.precisionError) ∧
      depair z = Except.ok (2 ^ 52, 2 ^ 52) :=
  claim_c6_precision_boundary isqrt

/-- C7 counterexample: the claim `pair 22 33 = 3135` and
`depair 3135 = (22, 33)` is false on the spec's own formula:
`pair 22 33` is `((22+33)*(22+33+1))/2 + 33 = 1573`, not `3135`, and
`depair 3135` is `(24, 54)`, not `(22, 33)`. -/
theorem claim_c7_counterexample :
    pair 22 33 ≠ Except.ok 3135 ∧ depair 3135 ≠ Except.ok (22, 33) := by
  have h1 : pair 22 33 = Except.ok 1573 := rfl
  have h2 : depair 3135 = Except.ok (24, 54) := rfl
  constructor
  · rw [h1]
    intro h
    have h3 := Except.ok.inj h
    norm_num at h3
  · rw [h2]
    intro h
    have h3 := Except.ok.inj h
    simp at h3

/-- C7 amended: `pair 22 33` returns `1573` and `depair 1573` returns
`(22, 33)`; moreover `depair 3135` returns `(24, 54)`, the unique pair
encoding `3135`. -/
theorem claim_c7_amended :
    pair 22 33 = Except.ok 1573 ∧ depair 1573 = Except.ok (22, 33) ∧
      depair 3135 = Except.ok (24, 54) :=
  ⟨rfl, rfl, rfl⟩

/-- C8: `pair 0 0` returns `0` and `depair 0` returns `(0, 0)`. -/
theorem claim_c8_zero :
    pair 0 0 = Except.ok 0 ∧ depair 0 = Except.ok (0, 0) :=
  ⟨rfl, rfl⟩

/-- C9: the error raised for negative inputs is Python's `ValueError`:
`pair (-1) (-1)` fails with `InvalidInput`, which is realised as
`ValueError` (the class `src/test.py` catches) rather than a dedicated
error type. -/
theorem claim_c9_value_error :
    pair (-1) (-1) = Except.error PairingError.invalidInput ∧
      pyExceptionType PairingError.invalidInput = "ValueError" :=
  ⟨rfl, rfl⟩

/-- C10: a precision failure of the decode step surfaces as the same
exception type, `ValueError`, as the negative-input rejection, so a caller
cannot distinguish the two by exception type alone; and the round-trip at
`2^52` either succeeds exactly or fails with a `ValueError`, for every
integer square-root routine `f`. -/
theorem claim_c10_same_exception_type (f : Nat → Nat) :
    (∀ e : PairingError, pyExceptionType e = "ValueError") ∧
      pyExceptionType PairingError.precisionError = pyExceptionType PairingError.invalidInput ∧
      ∃ z, pair (2 ^ 52) (2 ^ 52) = Except.ok z ∧
        (depairWith f z = Except.ok (2 ^ 52, 2 ^ 52) ∨
          ∃ e, depairWith f z = Except.error e ∧ pyExceptionType e = "ValueError") := by
  refine ⟨fun e => by cases e <;> rfl, rfl, ?_⟩
  have hp : (0 : Int) ≤ 2 ^ 52 := by positivity
  obtain ⟨z, hz, hd⟩ := roundtrip hp hp
  rcases depairWith_cases f hz with h | h
  · exact ⟨z, hz, Or.inl h⟩
  · exact ⟨z, hz, Or.inr ⟨_, h, rfl⟩⟩

theorem claim_c10_same_exception_type_witness :
    (∀ e : PairingError, pyExceptionType e = "ValueError") ∧
      pyExceptionType PairingError.precisionError = pyExceptionType PairingError.invalidInput ∧
      ∃ z, pair (2 ^ 52) (2 ^ 52) = Except.ok z ∧
        (depairWith isqrt z = Except.ok (2 ^ 52, 2 ^ 52) ∨
          ∃ e, depairWith isqrt z = Except.error e ∧ pyExceptionType e = "ValueError") :=
  claim_c10_same_exception_type isqrt

end PairingSpec
